import Mathlib

/-!
Verification of the creative-strategy assistant backend (src/server.js).

The file shallowly embeds the decision logic of the server: email
validation and capture, the streaming chat relay, VTT transcript
parsing, platform detection, and the video-analysis pipeline with its
error classification and workspace cleanup. External effects (child
processes, the filesystem, the hosted model) are modelled as an
environment record holding each fallible outcome; the handlers are
deterministic functions of that environment.
-/

namespace CSA

/-- Character class of the JavaScript regex token backslash-s: space,
tab, line feed, vertical tab, form feed, carriage return, and the
Unicode space separators JavaScript includes. -/
def jsWhitespace (c : Char) : Bool :=
  c = ' ' || c = '\t' || c = '\n' || c = '\x0b' || c = '\x0c' || c = '\r' ||
  c = '\u00a0' || c = '\u1680' ||
  (('\u2000' : Char) ≤ c && c ≤ '\u200a') ||
  c = '\u2028' || c = '\u2029' || c = '\u202f' || c = '\u205f' ||
  c = '\u3000' || c = '\ufeff'

/-! ### Email capture (src/server.js lines 163-181) -/

/-- Search the domain part (minus its first character) for a dot that
still has at least one character after it. -/
def dotThenMore : List Char → Bool
  | [] => false
  | [_] => false
  | c :: rest => c = '.' || dotThenMore rest

/-- The domain part has a dot at an interior position: at least one
character before it and at least one after it. -/
def domainHasInnerDot : List Char → Bool
  | [] => false
  | _ :: rest => dotThenMore rest

/-- Embedding of the validation regex of /api/save-email: one or more
non-whitespace non-at characters, an at sign, then a domain that is
non-whitespace, free of further at signs, and contains an interior
dot, anchored at both ends. -/
def validEmail (s : String) : Bool :=
  let cs := s.data
  let l := cs.takeWhile (fun c => c ≠ '@')
  match cs.dropWhile (fun c => c ≠ '@') with
  | '@' :: d =>
    decide (l ≠ []) && l.all (fun c => !jsWhitespace c) &&
    d.all (fun c => !jsWhitespace c && c ≠ '@') && domainHasInnerDot d
  | _ => false

/-- Body of the /api/save-email response. -/
inductive SaveBody where
  | success
  | invalid (msg : String)
  deriving DecidableEq, Repr

/-- Result of one /api/save-email request: HTTP status, JSON body, the
log lines whose append was attempted, and the log lines actually
written. -/
structure SaveEmailResult where
  status : Nat
  body : SaveBody
  attempted : List String
  written : List String
  deriving DecidableEq, Repr

def msgInvalidEmail : String := "Invalid email address"

def tabStr : String := "\t"

def nlStr : String := "\n"

/-- Embedding of the /api/save-email handler. `email` is the request
body field (`none` when absent), `now` the ISO timestamp of the
request, `appendOk` whether the filesystem append succeeds. A missing
or falsy email field and a regex failure both yield the 400 branch;
once validation passes the entry is appended and success is reported
even when the append raises. -/
def saveEmail (email : Option String) (now : String) (appendOk : Bool) :
    SaveEmailResult :=
  match email with
  | none => ⟨400, SaveBody.invalid msgInvalidEmail, [], []⟩
  | some e =>
    if e = "" || !validEmail e then
      ⟨400, SaveBody.invalid msgInvalidEmail, [], []⟩
    else
      let entry := now ++ tabStr ++ e ++ nlStr
      if appendOk then ⟨200, SaveBody.success, [entry], [entry]⟩
      else ⟨200, SaveBody.success, [entry], []⟩

/-! ### Streaming chat relay (src/server.js lines 184-227) -/

/-- Event from the upstream model stream. Only text deltas produce a
write; every other event type is skipped by the loop. -/
inductive ChatEvent where
  | textDelta (s : String)
  | other
  deriving DecidableEq, Repr

/-- Write issued on the server-sent-event connection: a framed text
fragment, the framed generic error event, or the terminal sentinel. -/
inductive ChatWrite where
  | text (s : String)
  | errorEvent
  | done
  deriving DecidableEq, Repr

/-- Whether `res.destroyed` reads true at the k-th check. `d` is the
index of the first check at which the caller is observed to have
disconnected (`none` when the caller never disconnects); destruction
is permanent, so every later check also reads true. -/
def destroyedAt (d : Option Nat) (k : Nat) : Bool :=
  match d with
  | none => false
  | some i => decide (i ≤ k)

/-- The for-await loop of the /api/chat handler: each iteration checks
`res.destroyed` (breaking if set), then writes the fragment of a text
delta. Returns the writes, the next check index, and whether the loop
broke because of a disconnect. -/
def chatLoop : List ChatEvent → Option Nat → Nat → List ChatWrite × Nat × Bool
  | [], _, k => ([], k, false)
  | e :: rest, d, k =>
    if destroyedAt d k then ([], k, true)
    else
      let r := chatLoop rest d (k + 1)
      (match e with
       | ChatEvent.textDelta s => ChatWrite.text s :: r.1
       | ChatEvent.other => r.1,
       r.2.1, r.2.2)

/-- Embedding of the /api/chat handler after validation: `events` is
what the upstream stream yields, `fails` whether the iteration raises
after the listed events, `d` the disconnect point. The catch block
writes one generic error event (checking `res.destroyed` first) and
the finally block writes the terminal sentinel (same check). If the
loop broke on a disconnect the stream is no longer pulled, so no
upstream exception reaches the catch block. -/
def chatHandler (events : List ChatEvent) (fails : Bool) (d : Option Nat) :
    List ChatWrite :=
  let r := chatLoop events d 0
  let raised := fails && !r.2.2
  let errWs := if raised && !destroyedAt d r.2.1 then [ChatWrite.errorEvent] else []
  let k2 := if raised then r.2.1 + 1 else r.2.1
  let doneWs := if !destroyedAt d k2 then [ChatWrite.done] else []
  r.1 ++ errWs ++ doneWs

/-- The text fragments carried by a list of upstream events, in
emission order. -/
def fragments (events : List ChatEvent) : List String :=
  events.filterMap (fun e =>
    match e with
    | ChatEvent.textDelta s => some s
    | ChatEvent.other => none)

/-! ### VTT transcript parsing (src/server.js lines 238-254) -/

/-- Split a character list at every line feed, exactly as the
JavaScript string split on a newline does: the result is always
nonempty and empty segments are kept. -/
def splitOnNl : List Char → List (List Char)
  | [] => [[]]
  | c :: rest =>
    match splitOnNl rest with
    | [] => [[c]]
    | h :: t => if c = '\n' then [] :: h :: t else (c :: h) :: t

def markWEBVTT : List Char := "WEBVTT".data

def markNOTE : List Char := "NOTE".data

def markKind : List Char := "Kind:".data

def markLanguage : List Char := "Language:".data

/-- The line begins with a two-digit, colon, two-digit timestamp, the
anchored digit pattern of the filter. -/
def startsWithTimestamp (l : List Char) : Bool :=
  match l with
  | a :: b :: c :: d :: e :: _ =>
    a.isDigit && b.isDigit && c = ':' && d.isDigit && e.isDigit
  | _ => false

/-- The line filter of parseVTT: keep a line when it is nonempty (a
falsy empty string is dropped) and begins with none of the header,
metadata, or timestamp markers. -/
def keepLine (l : List Char) : Bool :=
  !l.isEmpty &&
  !markWEBVTT.isPrefixOf l &&
  !startsWithTimestamp l &&
  !markNOTE.isPrefixOf l &&
  !markKind.isPrefixOf l &&
  !markLanguage.isPrefixOf l

/-- Fuelled scan of the global replacement of the tag regex (open
angle, one or more non-close-angle characters, close angle) by the
empty string, scanning left to right as the JavaScript engine does.
The fuel only forces structural recursion; it is always called with
fuel at least the list length, so the fuel-exhausted arm is never
reached. -/
def stripTagsF : Nat → List Char → List Char
  | 0, cs => cs
  | _ + 1, [] => []
  | fuel + 1, c :: rest =>
    if c = '<' then
      match rest.dropWhile (fun x => x ≠ '>') with
      | '>' :: rest2 =>
        if rest.takeWhile (fun x => x ≠ '>') = [] then c :: stripTagsF fuel rest
        else stripTagsF fuel rest2
      | _ => c :: stripTagsF fuel rest
    else c :: stripTagsF fuel rest

/-- Global replacement of the tag regex by the empty string. -/
def stripTags (cs : List Char) : List Char := stripTagsF cs.length cs

/-- Fuelled scan of the global replacement of each maximal whitespace
run by one space; the fuel only forces structural recursion. -/
def collapseWSF : Nat → List Char → List Char
  | 0, cs => cs
  | _ + 1, [] => []
  | fuel + 1, c :: rest =>
    if jsWhitespace c then
      ' ' :: collapseWSF fuel (rest.dropWhile jsWhitespace)
    else c :: collapseWSF fuel rest

/-- Global replacement of each maximal whitespace run by one space. -/
def collapseWS (cs : List Char) : List Char := collapseWSF cs.length cs

/-- Trim of leading and trailing whitespace. -/
def jsTrim (cs : List Char) : List Char :=
  ((cs.dropWhile jsWhitespace).reverse.dropWhile jsWhitespace).reverse

/-- Core of parseVTT on an already split line list: filter the lines,
join with single spaces, strip inline tags, collapse whitespace runs,
trim, and truncate to 3000 characters. -/
def parseVTTlines (ls : List (List Char)) : String :=
  String.mk ((jsTrim (collapseWS (stripTags
    (List.intercalate [' '] (ls.filter keepLine))))).take 3000)

/-- Embedding of parseVTT (src/server.js lines 238-254). -/
def parseVTT (s : String) : String :=
  parseVTTlines (splitOnNl s.data)

/-- A complete inline tag occurs somewhere in the character list: an
open angle bracket, a nonempty run of non-close-angle characters, and
a close angle bracket. -/
def hasTag : List Char → Bool
  | [] => false
  | c :: rest =>
    (if c = '<' then
      (match rest.dropWhile (fun x => x ≠ '>') with
       | '>' :: _ => !(rest.takeWhile (fun x => x ≠ '>')).isEmpty
       | _ => false)
     else false) || hasTag rest

/-! ### Platform detection (src/server.js lines 231-236) -/

/-- Substring containment: the pattern occurs contiguously somewhere
in the list, the meaning of an unanchored literal regex test. -/
def infixOfL (pat : List Char) : List Char → Bool
  | [] => pat.isEmpty
  | c :: rest => pat.isPrefixOf (c :: rest) || infixOfL pat rest

def patYoutubeCom : List Char := "youtube.com".data

def patYoutuBe : List Char := "youtu.be".data

def patTiktok : List Char := "tiktok.com".data

def patInstagram : List Char := "instagram.com".data

/-- Embedding of detectPlatform: each regex is an unanchored literal
pattern, so the test is substring containment. -/
def detectPlatform (url : String) : Option String :=
  if infixOfL patYoutubeCom url.data || infixOfL patYoutuBe url.data then
    some "youtube"
  else if infixOfL patTiktok url.data then some "tiktok"
  else if infixOfL patInstagram url.data then some "instagram"
  else none

/-! ### Video analysis pipeline (src/server.js lines 256-391) -/

/-- Outcome environment of one /api/analyze-video request: each field
records the result of an external effect the handler performs, in
pipeline order. -/
structure AnalyzeEnv where
  /-- The url field of the request body, `none` when absent. -/
  url : Option String
  /-- fs.mkdirSync of the frames directory: `Except.error` carries the
  raised message. -/
  mkdirRes : Except String Unit
  /-- The yt-dlp video download invocation. -/
  downloadRes : Except String Unit
  /-- fs.readdirSync of the workspace after the download. -/
  filesAfterDownload : List String
  /-- Whether the subtitle yt-dlp invocation succeeds (its failure is
  swallowed). -/
  subFetchOk : Bool
  /-- fs.readdirSync of the workspace at the subtitle stage. -/
  filesAfterSub : List String
  /-- Whether reading the first subtitle file succeeds. -/
  subReadOk : Bool
  /-- Content of the first subtitle file. -/
  subContent : String
  /-- The ffprobe invocation: outer `none` when the process fails,
  inner value the parse of its trimmed stdout (`none` for NaN). -/
  probeRes : Option (Option ℚ)
  /-- Per-index success of the eight parallel ffmpeg frame
  extractions (an individual failure is swallowed). -/
  frameOk : List Bool
  /-- Per-index success of reading each produced frame file back. -/
  frameReadOk : List Bool
  /-- The vision-model call: the analysis text, or the raised
  message. -/
  visionRes : Except String String
  /-- Whether fs.rmSync of the workspace raises (the error is caught
  and suppressed). -/
  rmThrows : Bool

def vttSuffix : List Char := ".vtt".data

def videoPrefix : List Char := "video.".data

/-- The downloaded video file: first directory entry named with the
video prefix that is not a subtitle file. -/
def findVideoFile (env : AnalyzeEnv) : Option String :=
  env.filesAfterDownload.find? (fun f =>
    videoPrefix.isPrefixOf f.data && !vttSuffix.isSuffixOf f.data)

/-- The transcript string: parse the first produced subtitle file when
the fetch succeeded, a subtitle file exists, and the read succeeds;
empty otherwise (every failure in this stage is swallowed). -/
def transcriptOf (env : AnalyzeEnv) : String :=
  if env.subFetchOk &&
     !(env.filesAfterSub.filter (fun f => vttSuffix.isSuffixOf f.data)).isEmpty &&
     env.subReadOk then
    parseVTT env.subContent
  else ""

/-- The probed-or-default duration: the parsed ffprobe output when the
probe succeeded and parsed to a truthy (nonzero, non-NaN) number, and
the 60-second fallback otherwise. -/
def durationOf (env : AnalyzeEnv) : ℚ :=
  match env.probeRes with
  | some (some q) => if q = 0 then 60 else q
  | _ => 60

/-- The eight frame timestamps: the i-th is the even-grid point
i times duration over eight, floored at half a second. -/
def frameTimestamps (d : ℚ) : List ℚ :=
  (List.range 8).map (fun i : Nat => max (1 / 2) (d / 8 * (i : ℚ)))

/-- Number of frames that were both produced by ffmpeg and read back
successfully, out of the eight attempted indices. -/
def framesProduced (env : AnalyzeEnv) : Nat :=
  ((List.range 8).filter (fun i =>
    env.frameOk.getD i false && env.frameReadOk.getD i false)).length

def msgDownloadFailed : String :=
  "Download failed — video may be private or unavailable"

def msgNoFrames : String := "Could not extract frames from video"

def noTranscriptBranch : String :=
  "No transcript available — analyze visuals only.\n\n"

/-- The vision prompt of step seven, with the transcript branch chosen
by JavaScript truthiness of the transcript string. -/
def visionPrompt (platform transcript : String) (frameCount : Nat) : String :=
  "You're a sharp content strategist analyzing a " ++ platform ++
  " video for a creator who wants honest, actionable feedback.\n\n" ++
  (if transcript ≠ "" then
    "TRANSCRIPT (auto-generated):\n\"" ++ transcript ++ "\"\n\n"
   else noTranscriptBranch) ++
  toString frameCount ++
  " frames are attached, sampled evenly across the full video.\n\n" ++
  "Give direct, specific feedback:\n\n## Hook (First 3 Seconds)\n" ++
  "Was the opening strong? What technique did they use? Would you keep watching?\n\n" ++
  "## Visuals & Production\nLighting, framing, editing pace, shot variety, overall production quality.\n\n" ++
  "## Content & Structure\nHow well organized? Pacing, storytelling, clarity of message.\n\n" ++
  "## What's Working\n2-3 specific strengths. Be specific, not generic.\n\n" ++
  "## Top Improvements\n2-3 changes that would make the biggest difference. Be direct and actionable.\n\n" ++
  "## Score: X/10\nOne punchy sentence summary.\n\n" ++
  "Talk like a creative director, not a cheerleader. Reference specific things you actually see."

/-- Observable outcome of a successful pipeline run. -/
structure PipelineOut where
  analysis : String
  transcript : String
  frameCount : Nat
  frameTimes : List ℚ
  prompt : String
  deriving DecidableEq, Repr

/-- Steps two to seven of the handler body (everything inside the try
block): workspace provisioning, download, video-file lookup, optional
transcript, duration probe, frame extraction, and the vision call.
The first raised message short-circuits the rest. -/
def pipelineRun (env : AnalyzeEnv) (platform : String) :
    Except String PipelineOut :=
  match env.mkdirRes with
  | Except.error m => Except.error m
  | Except.ok _ =>
    match env.downloadRes with
    | Except.error m => Except.error m
    | Except.ok _ =>
      match findVideoFile env with
      | none => Except.error msgDownloadFailed
      | some _ =>
        let t := transcriptOf env
        let d := durationOf env
        let ts := frameTimestamps d
        let n := framesProduced env
        if n = 0 then Except.error msgNoFrames
        else
          match env.visionRes with
          | Except.error m => Except.error m
          | Except.ok analysis =>
            Except.ok ⟨analysis, t, n, ts, visionPrompt platform t n⟩

def msgPrivate : String := "That video is private — paste a public URL."

def msgTooLong : String := "Video is too long — max 20 minutes."

def msgUnavailable : String := "Video unavailable. Make sure the URL is public."

def msgGeneric : String :=
  "Could not analyze that video. Make sure the URL is public and try again."

def msgNoUrl : String := "No URL provided"

def msgBadPlatform : String :=
  "Please paste a YouTube, TikTok, or Instagram URL."

/-- Case-insensitive (lower-cased ASCII) substring containment, the
meaning of an unanchored literal alternative under the i flag. -/
def containsCI (pat : List Char) (s : String) : Bool :=
  infixOfL (pat.map Char.toLower) (s.data.map Char.toLower)

def patPrivate : List Char := "private".data

def pat1200 : List Char := "1200".data

def patDuration : List Char := "duration".data

def patTooLong : List Char := "too long".data

def patUnavailable : List Char := "unavailable".data

def patNotAvailable : List Char := "not available".data

/-- The first alternative set of the classifier regex chain. -/
def matchPrivate (m : String) : Bool := containsCI patPrivate m

/-- The duration-ceiling alternative set. -/
def matchTooLong (m : String) : Bool :=
  containsCI pat1200 m || containsCI patDuration m || containsCI patTooLong m

/-- The unavailability alternative set. -/
def matchUnavailable (m : String) : Bool :=
  containsCI patUnavailable m || containsCI patNotAvailable m

/-- The error classifier of the catch block (src/server.js lines
382-386): first matching pattern chooses the user-facing text. -/
def classifyError (m : String) : String :=
  if matchPrivate m then msgPrivate
  else if matchTooLong m then msgTooLong
  else if matchUnavailable m then msgUnavailable
  else msgGeneric

/-- Filesystem event on the temporary workspace: creation, successful
recursive removal, or a removal attempt that raised (in which case the
directory may well still be present — force only suppresses the
missing-file error, not, say, a permission error). -/
inductive FsEvent where
  | mkdirTemp
  | rmTemp
  | rmFailed
  deriving DecidableEq, Repr

/-- Whether the workspace directory exists after a trace of events:
created by the mkdir event, removed by a successful removal, left
as it was by a removal attempt that raised, absent initially. -/
def dirExistsAfter (events : List FsEvent) : Bool :=
  events.foldl (fun b e =>
    match e with
    | FsEvent.mkdirTemp => true
    | FsEvent.rmTemp => false
    | FsEvent.rmFailed => b) false

/-- Body of the /api/analyze-video response. -/
inductive AnalyzeBody where
  | err (msg : String)
  | ok (analysis platform : String) (hasTranscript : Bool) (frameCount : Nat)
  deriving DecidableEq, Repr

/-- Result of one /api/analyze-video request: status, body, and the
trace of workspace filesystem events. -/
structure AnalyzeResult where
  status : Nat
  body : AnalyzeBody
  events : List FsEvent
  deriving DecidableEq, Repr

/-- The fs.rmSync call of the finally block. -/
def rmSyncRes (env : AnalyzeEnv) : Except String Unit :=
  if env.rmThrows then Except.error "rm failed" else Except.ok ()

/-- The event the finally block's removal attempt leaves in the
trace: a successful rmSync removes the directory, a raising one only
records the failed attempt. -/
def rmEvent (env : AnalyzeEnv) : FsEvent :=
  if env.rmThrows then FsEvent.rmFailed else FsEvent.rmTemp

/-- The finally block: attempt the removal on every exit path, and
catch (discard) any error the removal raises, leaving the response
unchanged; a raising removal may leave the directory behind. -/
def runCleanup (env : AnalyzeEnv) (status : Nat) (body : AnalyzeBody)
    (events : List FsEvent) : AnalyzeResult :=
  match rmSyncRes env with
  | Except.ok _ => ⟨status, body, events ++ [FsEvent.rmTemp]⟩
  | Except.error _ => ⟨status, body, events ++ [FsEvent.rmFailed]⟩

/-- The workspace events of the try block: the mkdir event when
provisioning succeeds, nothing when mkdirSync raises before creating
anything. -/
def createdEvents (env : AnalyzeEnv) : List FsEvent :=
  match env.mkdirRes with
  | Except.ok _ => [FsEvent.mkdirTemp]
  | Except.error _ => []

/-- Embedding of the /api/analyze-video handler: validation, the try
block (with the mkdir event emitted when provisioning succeeds), the
catch block mapping a raised message through the classifier to a 500,
and the finally block always removing the workspace. -/
def analyzeVideo (env : AnalyzeEnv) : AnalyzeResult :=
  match env.url with
  | none => ⟨400, AnalyzeBody.err msgNoUrl, []⟩
  | some u =>
    if u = "" then ⟨400, AnalyzeBody.err msgNoUrl, []⟩
    else
      match detectPlatform u with
      | none => ⟨400, AnalyzeBody.err msgBadPlatform, []⟩
      | some platform =>
        match pipelineRun env platform with
        | Except.ok out =>
          runCleanup env 200
            (AnalyzeBody.ok out.analysis platform
              (decide (out.transcript ≠ "")) out.frameCount)
            (createdEvents env)
        | Except.error m =>
          runCleanup env 500 (AnalyzeBody.err (classifyError m))
            (createdEvents env)

/-! ### Concrete test environments -/

/-- A fully successful analysis environment on a video-sharing URL. -/
def envOk : AnalyzeEnv where
  url := some "https://www.youtube.com/watch?v=abc123"
  mkdirRes := Except.ok ()
  downloadRes := Except.ok ()
  filesAfterDownload := ["video.mp4"]
  subFetchOk := true
  filesAfterSub := ["sub.en.vtt"]
  subReadOk := true
  subContent := "WEBVTT\nKind: captions\nLanguage: en\n00:00.000 --> 00:02.000\nhello <b>world</b>"
  probeRes := some (some 120)
  frameOk := [true, true, true, true, true, true, true, true]
  frameReadOk := [true, true, true, true, true, true, true, true]
  visionRes := Except.ok "the analysis"
  rmThrows := false

/-- The successful environment, but every frame extraction fails. -/
def envNoFrames : AnalyzeEnv :=
  { envOk with
    frameOk := [false, false, false, false, false, false, false, false] }

/-- The successful environment, but the subtitle file holds only
header, metadata, and timestamp lines, so parsing yields the empty
string. -/
def envHeaderOnlySub : AnalyzeEnv :=
  { envOk with subContent := "WEBVTT\nKind: captions\nLanguage: en\n00:00.000 --> 00:02.000" }

/-- The pipeline outcome of the fully successful environment. -/
def pipelineOutOk : PipelineOut :=
  ⟨"the analysis", transcriptOf envOk, framesProduced envOk,
   frameTimestamps (durationOf envOk),
   visionPrompt "youtube" (transcriptOf envOk) (framesProduced envOk)⟩

/-- The pipeline outcome of the header-only-subtitle environment. -/
def pipelineOutHeader : PipelineOut :=
  ⟨"the analysis", transcriptOf envHeaderOnlySub,
   framesProduced envHeaderOnlySub,
   frameTimestamps (durationOf envHeaderOnlySub),
   visionPrompt "youtube" (transcriptOf envHeaderOnlySub)
     (framesProduced envHeaderOnlySub)⟩

/-! ## Theorems -/

theorem dotThenMore_false (l : List Char) (h : ∀ c ∈ l, c ≠ '.') :
    dotThenMore l = false := by
  induction l with
  | nil => rfl
  | cons a r ih =>
    cases r with
    | nil => rfl
    | cons b r2 =>
      have ha : a ≠ '.' := h a (List.mem_cons_self a _)
      have ha2 : decide (a = '.') = false := by simp [ha]
      have hr : dotThenMore (b :: r2) = false :=
        ih (fun c hc => h c (List.mem_cons_of_mem a hc))
      simp only [dotThenMore, ha2, Bool.false_or]
      exact hr

theorem domainHasInnerDot_false (d : List Char) (h : ∀ c ∈ d, c ≠ '.') :
    domainHasInnerDot d = false := by
  cases d with
  | nil => rfl
  | cons a rest =>
    simp only [domainHasInnerDot]
    exact dotThenMore_false rest (fun c hc => h c (List.mem_cons_of_mem a hc))

/-- C8: an invalid email string, in particular one missing an at sign
or missing a dot in the domain part, makes /api/save-email answer 400
with the descriptive message without attempting any append to the log
file. -/
theorem save_email_rejects_invalid
    (e now : String) (appendOk : Bool)
    (hinv : validEmail e = false) :
    saveEmail (some e) now appendOk =
      ⟨400, SaveBody.invalid msgInvalidEmail, [], []⟩ ∧
    (∀ s : String, s.data.all (fun c => c ≠ '@') = true →
      validEmail s = false) ∧
    (∀ (s : String) (d : List Char),
      s.data.dropWhile (fun c => c ≠ '@') = '@' :: d →
      d.all (fun c => c ≠ '.') = true →
      validEmail s = false) := by
  refine ⟨?_, ?_, ?_⟩
  · simp [saveEmail, hinv]
  · intro s hno
    have hall : ∀ c ∈ s.data, c ≠ '@' := by
      intro c hc
      have := List.all_eq_true.mp hno c hc
      exact of_decide_eq_true this
    have hnil : s.data.dropWhile (fun c => decide (c ≠ '@')) = [] := by
      rw [List.dropWhile_eq_nil_iff]
      intro x hx
      exact decide_eq_true (hall x hx)
    simp only [validEmail, hnil]
  · intro s d hd hnodot
    unfold validEmail
    simp only [hd]
    have hdot : domainHasInnerDot d = false :=
      domainHasInnerDot_false d (fun c hc =>
        of_decide_eq_true (List.all_eq_true.mp hnodot c hc))
    simp [hdot]

/-- Witness for C8 at the concrete inputs "nodomain" (no at sign) and
"user@nodot" (no dot after the at sign). -/
theorem save_email_rejects_invalid_witness :
    saveEmail (some "nodomain") "2026-10-11T00:00:00.000Z" true =
      ⟨400, SaveBody.invalid msgInvalidEmail, [], []⟩ ∧
    validEmail "user@nodot" = false := by
  have h1 := save_email_rejects_invalid "nodomain" "2026-10-11T00:00:00.000Z" true
    (by decide)
  have h2 := save_email_rejects_invalid "x" "" true (by decide)
  exact ⟨h1.1, h2.2.2 "user@nodot" "nodot".data (by decide) (by decide)⟩

/-- C9: a validated email makes /api/save-email attempt exactly one
log line of the form timestamp, tab, address, line feed, and report
success even when the storage append fails; the append failure is
never surfaced as an error response. -/
theorem save_email_valid_always_succeeds
    (e now : String) (appendOk : Bool)
    (hval : validEmail e = true) :
    (saveEmail (some e) now appendOk).status = 200 ∧
    (saveEmail (some e) now appendOk).body = SaveBody.success ∧
    (saveEmail (some e) now appendOk).attempted =
      [now ++ tabStr ++ e ++ nlStr] ∧
    (saveEmail (some e) now false).written = [] := by
  have hne : e ≠ "" := by
    intro h
    rw [h] at hval
    simp [validEmail] at hval
  have hcond : (decide (e = "") || !validEmail e) = false := by
    rw [hval]
    simp [hne]
  simp only [saveEmail, hcond]
  cases appendOk <;> simp

/-- Witness for C9 at a concrete valid address with a failing
append. -/
theorem save_email_valid_always_succeeds_witness :
    (saveEmail (some "a@b.co") "2026-10-11T00:00:00.000Z" false).status = 200 ∧
    (saveEmail (some "a@b.co") "2026-10-11T00:00:00.000Z" false).body =
      SaveBody.success ∧
    (saveEmail (some "a@b.co") "2026-10-11T00:00:00.000Z" false).attempted =
      ["2026-10-11T00:00:00.000Z" ++ tabStr ++ "a@b.co" ++ nlStr] ∧
    (saveEmail (some "a@b.co") "2026-10-11T00:00:00.000Z" false).written = [] := by
  exact save_email_valid_always_succeeds "a@b.co" "2026-10-11T00:00:00.000Z" false
    (by decide)

theorem runCleanup_eq (env : AnalyzeEnv) (s : Nat) (b : AnalyzeBody)
    (evs : List FsEvent) :
    runCleanup env s b evs = ⟨s, b, evs ++ [rmEvent env]⟩ := by
  unfold runCleanup rmSyncRes rmEvent
  by_cases h : env.rmThrows <;> simp [h]

theorem analyzeVideo_validated (env : AnalyzeEnv) (u p : String)
    (h1 : env.url = some u) (h2 : u ≠ "") (h3 : detectPlatform u = some p) :
    analyzeVideo env =
      match pipelineRun env p with
      | Except.ok out =>
        ⟨200,
         AnalyzeBody.ok out.analysis p (decide (out.transcript ≠ ""))
           out.frameCount,
         createdEvents env ++ [rmEvent env]⟩
      | Except.error m =>
        ⟨500, AnalyzeBody.err (classifyError m),
         createdEvents env ++ [rmEvent env]⟩ := by
  simp only [analyzeVideo, h1, h2, h3]
  cases hp : pipelineRun env p <;> simp [hp, runCleanup_eq]

theorem dirExistsAfter_append_rm (evs : List FsEvent) :
    dirExistsAfter (evs ++ [FsEvent.rmTemp]) = false := by
  unfold dirExistsAfter
  rw [List.foldl_append]
  rfl

theorem getLast?_append_ev (evs : List FsEvent) (e : FsEvent) :
    (evs ++ [e]).getLast? = some e := by
  rw [List.getLast?_append_cons]
  rfl

/-- C1 (counterexample): at a concrete request whose pipeline fully
succeeds but whose fs.rmSync raises, the temporary workspace directory
still exists after the request completes, refuting the claim that it
is gone even when the deletion itself raises. -/
theorem analyze_cleanup_counterexample :
    dirExistsAfter (analyzeVideo { envOk with rmThrows := true }).events =
      true := by
  decide

/-- C1 (amended): once URL validation passes, the recursive removal of
the workspace is attempted as the final workspace action on every exit
path, a raised deletion error is suppressed (status and body are
unchanged), and whenever the removal does not raise the workspace
directory no longer exists after the request completes. -/
theorem analyze_cleanup_always (env : AnalyzeEnv) (u p : String)
    (h1 : env.url = some u) (h2 : u ≠ "") (h3 : detectPlatform u = some p) :
    (env.rmThrows = false →
      dirExistsAfter (analyzeVideo env).events = false) ∧
    ((analyzeVideo env).events.getLast? = some FsEvent.rmTemp ∨
     (analyzeVideo env).events.getLast? = some FsEvent.rmFailed) ∧
    (analyzeVideo { env with rmThrows := true }).status =
      (analyzeVideo { env with rmThrows := false }).status ∧
    (analyzeVideo { env with rmThrows := true }).body =
      (analyzeVideo { env with rmThrows := false }).body := by
  have hv := analyzeVideo_validated env u p h1 h2 h3
  refine ⟨?_, ?_, ?_⟩
  · intro hrm
    have hev : rmEvent env = FsEvent.rmTemp := by
      unfold rmEvent
      rw [hrm]
      rfl
    rw [hv]
    cases hp : pipelineRun env p <;>
      simp [hp, hev, dirExistsAfter_append_rm]
  · rw [hv]
    cases hp : pipelineRun env p <;>
      cases hrm : env.rmThrows <;>
        simp [hp, rmEvent, hrm, getLast?_append_ev]
  · have hvt := analyzeVideo_validated { env with rmThrows := true } u p h1 h2 h3
    have hvf := analyzeVideo_validated { env with rmThrows := false } u p h1 h2 h3
    rw [hvt, hvf]
    have hpe : pipelineRun { env with rmThrows := true } p =
        pipelineRun env p := rfl
    have hpf : pipelineRun { env with rmThrows := false } p =
        pipelineRun env p := rfl
    rw [hpe, hpf]
    cases hp : pipelineRun env p <;> exact ⟨rfl, rfl⟩

/-- Witness for the amended C1 at the fully successful concrete
environment. -/
theorem analyze_cleanup_always_witness :
    dirExistsAfter (analyzeVideo envOk).events = false ∧
    ((analyzeVideo envOk).events.getLast? = some FsEvent.rmTemp ∨
     (analyzeVideo envOk).events.getLast? = some FsEvent.rmFailed) ∧
    (analyzeVideo { envOk with rmThrows := true }).body =
      (analyzeVideo { envOk with rmThrows := false }).body := by
  have h := analyze_cleanup_always envOk
    "https://www.youtube.com/watch?v=abc123" "youtube" rfl (by decide)
    (by decide)
  exact ⟨h.1 rfl, h.2.1, h.2.2.2⟩

/-- C7: platform detection classifies a video-sharing URL, a
short-form URL, and a photo/video URL by host-domain pattern
containment, in the priority order of the source chain; any other URL
is rejected with a 400 whose message names the three supported
platforms. -/
theorem platform_detection (url : String) :
    ((infixOfL patYoutubeCom url.data || infixOfL patYoutuBe url.data) = true →
      detectPlatform url = some "youtube") ∧
    ((infixOfL patYoutubeCom url.data || infixOfL patYoutuBe url.data) = false →
      infixOfL patTiktok url.data = true →
      detectPlatform url = some "tiktok") ∧
    ((infixOfL patYoutubeCom url.data || infixOfL patYoutuBe url.data) = false →
      infixOfL patTiktok url.data = false →
      infixOfL patInstagram url.data = true →
      detectPlatform url = some "instagram") ∧
    ((infixOfL patYoutubeCom url.data || infixOfL patYoutuBe url.data) = false →
      infixOfL patTiktok url.data = false →
      infixOfL patInstagram url.data = false →
      detectPlatform url = none) ∧
    (∀ env : AnalyzeEnv, env.url = some url → url ≠ "" →
      detectPlatform url = none →
      analyzeVideo env = ⟨400, AnalyzeBody.err msgBadPlatform, []⟩) ∧
    (infixOfL ("YouTube".data) msgBadPlatform.data = true ∧
     infixOfL ("TikTok".data) msgBadPlatform.data = true ∧
     infixOfL ("Instagram".data) msgBadPlatform.data = true) := by
  refine ⟨?_, ?_, ?_, ?_, ?_, by decide⟩
  · intro h
    simp [detectPlatform, h]
  · intro h ht
    simp [detectPlatform, h, ht]
  · intro h ht hi
    simp [detectPlatform, h, ht, hi]
  · intro h ht hi
    simp [detectPlatform, h, ht, hi]
  · intro env henv hne hnone
    simp [analyzeVideo, henv, hne, hnone]

/-- Witness for C7 at one concrete URL of each platform and one
unrelated URL. -/
theorem platform_detection_witness :
    detectPlatform "https://www.youtube.com/watch?v=abc" = some "youtube" ∧
    detectPlatform "https://www.tiktok.com/t/xyz" = some "tiktok" ∧
    detectPlatform "https://www.instagram.com/reel/xyz" = some "instagram" ∧
    analyzeVideo { envOk with url := some "https://vimeo.com/123" } =
      ⟨400, AnalyzeBody.err msgBadPlatform, []⟩ := by
  refine ⟨?_, ?_, ?_, ?_⟩
  · exact (platform_detection "https://www.youtube.com/watch?v=abc").1 (by decide)
  · exact (platform_detection "https://www.tiktok.com/t/xyz").2.1 (by decide)
      (by decide)
  · exact (platform_detection "https://www.instagram.com/reel/xyz").2.2.1
      (by decide) (by decide) (by decide)
  · exact (platform_detection "https://vimeo.com/123").2.2.2.2.1
      { envOk with url := some "https://vimeo.com/123" } rfl (by decide)
      (by decide)

/-- C3: the classifier maps a failure message from steps three to
seven by the ordered pattern chain of the source: the private pattern
first, then the duration-ceiling patterns, then the unavailability
patterns, then the generic text; a pipeline failure is returned as a
500 carrying the classified text, and the download-failure message of
the source classifies as the private text. -/
theorem error_classification (m : String) :
    (matchPrivate m = true → classifyError m = msgPrivate) ∧
    (matchPrivate m = false → matchTooLong m = true →
      classifyError m = msgTooLong) ∧
    (matchPrivate m = false → matchTooLong m = false →
      matchUnavailable m = true → classifyError m = msgUnavailable) ∧
    (matchPrivate m = false → matchTooLong m = false →
      matchUnavailable m = false → classifyError m = msgGeneric) ∧
    classifyError msgDownloadFailed = msgPrivate ∧
    (∀ (env : AnalyzeEnv) (u p : String), env.url = some u → u ≠ "" →
      detectPlatform u = some p →
      pipelineRun env p = Except.error m →
      (analyzeVideo env).status = 500 ∧
      (analyzeVideo env).body = AnalyzeBody.err (classifyError m)) := by
  refine ⟨?_, ?_, ?_, ?_, by decide, ?_⟩
  · intro h
    simp [classifyError, h]
  · intro h ht
    simp [classifyError, h, ht]
  · intro h ht hu
    simp [classifyError, h, ht, hu]
  · intro h ht hu
    simp [classifyError, h, ht, hu]
  · intro env u p h1 h2 h3 herr
    rw [analyzeVideo_validated env u p h1 h2 h3, herr]
    exact ⟨rfl, rfl⟩

/-- Witness for C3 at four concrete messages and a concrete failing
environment (the downloader produced no video file). -/
theorem error_classification_witness :
    classifyError "ERROR: This video is private" = msgPrivate ∧
    classifyError "video duration exceeds limit" = msgTooLong ∧
    classifyError "ERROR: Video unavailable" = msgUnavailable ∧
    classifyError "something else went wrong" = msgGeneric ∧
    (analyzeVideo { envOk with filesAfterDownload := [] }).status = 500 := by
  refine ⟨?_, ?_, ?_, ?_, ?_⟩
  · exact (error_classification "ERROR: This video is private").1 (by decide)
  · exact (error_classification "video duration exceeds limit").2.1 (by decide)
      (by decide)
  · exact (error_classification "ERROR: Video unavailable").2.2.1 (by decide)
      (by decide) (by decide)
  · exact (error_classification "something else went wrong").2.2.2.1 (by decide)
      (by decide) (by decide)
  · exact ((error_classification msgDownloadFailed).2.2.2.2.2
      { envOk with filesAfterDownload := [] }
      "https://www.youtube.com/watch?v=abc123" "youtube" rfl (by decide)
      (by decide) rfl).1

/-- C2: with the pipeline reaching the frame-extraction stage, zero
resulting frames make the request fail 500 with the classified
no-frames error (whose classified text is the generic message), while
one to eight resulting frames let the request succeed with frameCount
equal to the number produced; the produced count never exceeds
eight. -/
theorem frame_count_policy (env : AnalyzeEnv) (u p f : String)
    (h1 : env.url = some u) (h2 : u ≠ "") (h3 : detectPlatform u = some p)
    (h4 : env.mkdirRes = Except.ok ()) (h5 : env.downloadRes = Except.ok ())
    (h6 : findVideoFile env = some f) :
    (framesProduced env = 0 →
      (analyzeVideo env).status = 500 ∧
      (analyzeVideo env).body = AnalyzeBody.err (classifyError msgNoFrames) ∧
      classifyError msgNoFrames = msgGeneric) ∧
    (∀ a : String, env.visionRes = Except.ok a → 1 ≤ framesProduced env →
      (analyzeVideo env).status = 200 ∧
      (analyzeVideo env).body =
        AnalyzeBody.ok a p (decide (transcriptOf env ≠ ""))
          (framesProduced env) ∧
      framesProduced env ≤ 8) := by
  have hv := analyzeVideo_validated env u p h1 h2 h3
  constructor
  · intro h0
    have hrun : pipelineRun env p = Except.error msgNoFrames := by
      simp [pipelineRun, h4, h5, h6, h0]
    rw [hv, hrun]
    exact ⟨rfl, rfl, by decide⟩
  · intro a ha hn
    have hne : framesProduced env ≠ 0 := by omega
    have hrun : pipelineRun env p =
        Except.ok ⟨a, transcriptOf env, framesProduced env,
          frameTimestamps (durationOf env),
          visionPrompt p (transcriptOf env) (framesProduced env)⟩ := by
      simp [pipelineRun, h4, h5, h6, hne, ha]
    rw [hv, hrun]
    refine ⟨rfl, rfl, ?_⟩
    have hle : (((List.range 8).filter (fun i =>
        env.frameOk.getD i false && env.frameReadOk.getD i false)).length ≤
        (List.range 8).length) := List.length_filter_le _ _
    simpa [framesProduced] using hle

/-- Witness for C2: the all-frames-fail environment answers 500 and
the fully successful environment answers 200 with eight frames. -/
theorem frame_count_policy_witness :
    (analyzeVideo envNoFrames).status = 500 ∧
    (analyzeVideo envOk).status = 200 ∧
    (analyzeVideo envOk).body =
      AnalyzeBody.ok "the analysis" "youtube"
        (decide (transcriptOf envOk ≠ "")) (framesProduced envOk) := by
  have hbad := frame_count_policy envNoFrames
    "https://www.youtube.com/watch?v=abc123" "youtube" "video.mp4"
    rfl (by decide) (by decide) rfl rfl (by decide)
  have hgood := frame_count_policy envOk
    "https://www.youtube.com/watch?v=abc123" "youtube" "video.mp4"
    rfl (by decide) (by decide) rfl rfl (by decide)
  have hb := (hbad.1 (by decide)).1
  have hg := hgood.2 "the analysis" rfl (by decide)
  exact ⟨hb, hg.1, hg.2.1⟩

theorem chatLoop_none (events : List ChatEvent) (k : Nat) :
    chatLoop events none k =
      ((fragments events).map ChatWrite.text, k + events.length, false) := by
  induction events generalizing k with
  | nil => simp [chatLoop, fragments]
  | cons e rest ih =>
    have hd : destroyedAt none k = false := rfl
    simp only [chatLoop, hd, Bool.false_eq_true, if_false]
    rw [ih (k + 1)]
    cases e <;> simp [fragments, Prod.ext_iff] <;> omega

theorem chatLoop_some (events : List ChatEvent) (j : Nat) :
    ∀ k : Nat, k ≤ j →
    chatLoop events (some j) k =
      if events.length ≤ j - k then
        ((fragments events).map ChatWrite.text, k + events.length, false)
      else
        ((fragments (events.take (j - k))).map ChatWrite.text, j, true) := by
  induction events with
  | nil =>
    intro k hk
    simp [chatLoop, fragments]
  | cons e rest ih =>
    intro k hk
    by_cases hkj : j ≤ k
    · have hjk : k = j := le_antisymm hk hkj
      subst hjk
      have hd : destroyedAt (some k) k = true := by simp [destroyedAt]
      simp only [chatLoop, hd, if_true, Nat.sub_self]
      have hc : ¬((e :: rest).length ≤ 0) := by simp
      rw [if_neg hc]
      simp [fragments]
    · push_neg at hkj
      have hd : destroyedAt (some j) k = false := by
        simp only [destroyedAt, decide_eq_false_iff_not]
        omega
      simp only [chatLoop, hd, Bool.false_eq_true, if_false]
      rw [ih (k + 1) (by omega)]
      by_cases hlen : rest.length ≤ j - (k + 1)
      · rw [if_pos hlen, if_pos (by simp only [List.length_cons]; omega)]
        cases e <;> simp [fragments, Prod.ext_iff] <;> omega
      · rw [if_neg hlen, if_neg (by simp only [List.length_cons]; omega)]
        have htake : j - k = (j - (k + 1)) + 1 := by omega
        rw [htake]
        cases e <;> simp [fragments, Prod.ext_iff]

/-- C4: on a validated chat request the text fragments are written in
exactly the order the model emits them; on normal completion the
terminal sentinel follows the last fragment, on upstream failure
exactly one error event is written and then the sentinel, and after a
caller disconnect no further writes occur: only the fragments before
the disconnect, in order, with no error event and no sentinel. -/
theorem chat_stream_order_and_sentinel :
    (∀ (events : List ChatEvent) (fails : Bool),
      chatHandler events fails none =
        (fragments events).map ChatWrite.text ++
        (if fails then [ChatWrite.errorEvent] else []) ++ [ChatWrite.done]) ∧
    (∀ (events : List ChatEvent) (fails : Bool) (j : Nat),
      j ≤ events.length →
      chatHandler events fails (some j) =
        (fragments (events.take j)).map ChatWrite.text) := by
  constructor
  · intro events fails
    unfold chatHandler
    rw [chatLoop_none]
    have hd : ∀ k, destroyedAt none k = false := fun _ => rfl
    simp only [hd]
    cases fails <;> simp
  · intro events fails j hj
    unfold chatHandler
    rw [chatLoop_some events j 0 (Nat.zero_le j)]
    rcases Nat.lt_or_ge j events.length with hlt | hge
    · rw [if_neg (by omega)]
      have hd : destroyedAt (some j) j = true := by simp [destroyedAt]
      simp [hd]
    · have hje : j = events.length := le_antisymm hj hge
      subst hje
      rw [if_pos (by omega)]
      cases fails <;> simp [destroyedAt, List.take_length]

/-- Witness for C4 at the two-fragment mocked stream of the spec, with
and without a disconnect after the first fragment. -/
theorem chat_stream_order_and_sentinel_witness :
    chatHandler [ChatEvent.textDelta "Hello", ChatEvent.textDelta " there"]
        false none =
      [ChatWrite.text "Hello", ChatWrite.text " there", ChatWrite.done] ∧
    chatHandler [ChatEvent.textDelta "Hello", ChatEvent.textDelta " there"]
        true (some 1) =
      [ChatWrite.text "Hello"] := by
  constructor
  · have h := chat_stream_order_and_sentinel.1
      [ChatEvent.textDelta "Hello", ChatEvent.textDelta " there"] false
    simpa [fragments] using h
  · have h := chat_stream_order_and_sentinel.2
      [ChatEvent.textDelta "Hello", ChatEvent.textDelta " there"] true 1
      (by decide)
    simpa [fragments] using h

theorem frameTimestamps_getD (d : ℚ) (i : Nat) (hi : i < 8) :
    (frameTimestamps d).getD i 0 = max (1 / 2) (d / 8 * (i : ℚ)) := by
  unfold frameTimestamps
  rw [List.getD_eq_getElem?_getD, List.getElem?_map, List.getElem?_range hi]
  rfl

/-- C6: the frame-extraction stage computes eight timestamps, the i-th
derived from i times duration over eight with a half-second floor; the
floor makes the first timestamp exactly half a second, every timestamp
is at least half a second, consecutive timestamps beyond the floored
region are exactly duration over eight apart, and the pipeline takes
its timestamps from the probed-or-default duration. -/
theorem frame_timestamps_spec (d : ℚ) :
    (frameTimestamps d).length = 8 ∧
    (∀ i : Nat, i < 8 →
      (frameTimestamps d).getD i 0 = max (1 / 2) (d / 8 * i)) ∧
    (frameTimestamps d).getD 0 0 = 1 / 2 ∧
    (∀ i : Nat, i < 8 → 1 / 2 ≤ (frameTimestamps d).getD i 0) ∧
    (4 ≤ d → ∀ i : Nat, 1 ≤ i → i + 1 < 8 →
      (frameTimestamps d).getD (i + 1) 0 - (frameTimestamps d).getD i 0 =
        d / 8) ∧
    (∀ (env : AnalyzeEnv) (p : String) (out : PipelineOut),
      pipelineRun env p = Except.ok out →
      out.frameTimes = frameTimestamps (durationOf env)) := by
  refine ⟨?_, frameTimestamps_getD d, ?_, ?_, ?_, ?_⟩
  · unfold frameTimestamps
    rw [List.length_map, List.length_range]
  · rw [frameTimestamps_getD d 0 (by omega)]
    simp
  · intro i hi
    rw [frameTimestamps_getD d i hi]
    exact le_max_left _ _
  · intro hd i hi1 hi8
    rw [frameTimestamps_getD d (i + 1) (by omega),
        frameTimestamps_getD d i (by omega)]
    have hc1 : (1 : ℚ) ≤ (i : ℚ) := by exact_mod_cast hi1
    have hd8 : (1 : ℚ) / 2 ≤ d / 8 := by linarith
    have hpos : (0 : ℚ) ≤ d / 8 := by linarith
    have hi' : (1 : ℚ) / 2 ≤ d / 8 * i := by nlinarith
    have hi1' : (1 : ℚ) / 2 ≤ d / 8 * (i + 1 : Nat) := by
      push_cast
      nlinarith
    rw [max_eq_right hi', max_eq_right hi1']
    push_cast
    ring
  · intro env p out h
    unfold pipelineRun at h
    cases hmk : env.mkdirRes with
    | error m =>
      simp only [hmk] at h
      exact Except.noConfusion h
    | ok uu =>
      simp only [hmk] at h
      cases hdl : env.downloadRes with
      | error m =>
        simp only [hdl] at h
        exact Except.noConfusion h
      | ok uu2 =>
        simp only [hdl] at h
        cases hvf : findVideoFile env with
        | none =>
          simp only [hvf] at h
          exact Except.noConfusion h
        | some f =>
          simp only [hvf] at h
          by_cases h0 : framesProduced env = 0
          · rw [if_pos h0] at h
            exact Except.noConfusion h
          · rw [if_neg h0] at h
            cases hvis : env.visionRes with
            | error m =>
              simp only [hvis] at h
              exact Except.noConfusion h
            | ok a =>
              simp only [hvis] at h
              injection h with h2
              subst h2
              rfl

theorem pipelineRun_envOk :
    pipelineRun envOk "youtube" = Except.ok pipelineOutOk := by
  rfl

/-- Witness for C6 at duration eight (and at the successful concrete
environment for the pipeline conjunct). -/
theorem frame_timestamps_spec_witness :
    (frameTimestamps 8).getD 1 0 = max (1 / 2) (8 / 8 * ((1 : Nat) : ℚ)) ∧
    (frameTimestamps 8).getD 2 0 - (frameTimestamps 8).getD 1 0 = 8 / 8 ∧
    pipelineOutOk.frameTimes = frameTimestamps (durationOf envOk) := by
  refine ⟨?_, ?_, ?_⟩
  · exact (frame_timestamps_spec 8).2.1 1 (by omega)
  · exact (frame_timestamps_spec 8).2.2.2.2.1 (by norm_num) 1 (by omega)
      (by omega)
  · exact (frame_timestamps_spec 8).2.2.2.2.2 envOk "youtube" pipelineOutOk
      pipelineRun_envOk

theorem data_append (a b : String) : (a ++ b).data = a.data ++ b.data := rfl

theorem infixOfL_prefix (pat suf : List Char) :
    infixOfL pat (pat ++ suf) = true := by
  have hpre : pat.isPrefixOf (pat ++ suf) = true :=
    List.isPrefixOf_iff_prefix.mpr (List.prefix_append pat suf)
  cases hps : pat ++ suf with
  | nil =>
    have hp0 : pat = [] := (List.append_eq_nil.mp hps).1
    subst hp0
    rfl
  | cons c rest =>
    have hpre2 : pat.isPrefixOf (c :: rest) = true := by
      rw [← hps]
      exact hpre
    simp only [infixOfL, hpre2, Bool.true_or]

theorem infixOfL_append_left (pat l1 l2 : List Char)
    (h : infixOfL pat l2 = true) : infixOfL pat (l1 ++ l2) = true := by
  induction l1 with
  | nil => simpa using h
  | cons c l1 ih =>
    rw [List.cons_append]
    simp only [infixOfL, ih, Bool.or_true]

theorem pipelineRun_ok_shape (env : AnalyzeEnv) (p : String)
    (out : PipelineOut) (h : pipelineRun env p = Except.ok out) :
    out.transcript = transcriptOf env ∧
    out.frameCount = framesProduced env ∧
    out.prompt = visionPrompt p (transcriptOf env) (framesProduced env) ∧
    env.visionRes = Except.ok out.analysis := by
  unfold pipelineRun at h
  cases hmk : env.mkdirRes with
  | error m =>
    simp only [hmk] at h
    exact Except.noConfusion h
  | ok uu =>
    simp only [hmk] at h
    cases hdl : env.downloadRes with
    | error m =>
      simp only [hdl] at h
      exact Except.noConfusion h
    | ok uu2 =>
      simp only [hdl] at h
      cases hvf : findVideoFile env with
      | none =>
        simp only [hvf] at h
        exact Except.noConfusion h
      | some f =>
        simp only [hvf] at h
        by_cases h0 : framesProduced env = 0
        · rw [if_pos h0] at h
          exact Except.noConfusion h
        · rw [if_neg h0] at h
          cases hvis : env.visionRes with
          | error m =>
            simp only [hvis] at h
            exact Except.noConfusion h
          | ok a =>
            simp only [hvis] at h
            injection h with h2
            subst h2
            exact ⟨rfl, rfl, rfl, rfl⟩

/-- C10: the hasTranscript flag reports non-emptiness of the parsed
transcript, not presence of a subtitle file: when the subtitle fetch
succeeds, a subtitle file exists and is readable, but parsing yields
the empty string, the transcript is empty, the response carries
hasTranscript false, and the vision prompt contains the no-transcript
branch. -/
theorem hasTranscript_semantics (env : AnalyzeEnv) (u p : String)
    (h1 : env.url = some u) (h2 : u ≠ "") (h3 : detectPlatform u = some p)
    (h4 : env.subFetchOk = true)
    (h5 : (env.filesAfterSub.filter
      (fun f => vttSuffix.isSuffixOf f.data)).isEmpty = false)
    (h6 : env.subReadOk = true)
    (h7 : parseVTT env.subContent = "") :
    transcriptOf env = "" ∧
    (∀ out : PipelineOut, pipelineRun env p = Except.ok out →
      out.transcript = "" ∧
      (analyzeVideo env).body =
        AnalyzeBody.ok out.analysis p false out.frameCount ∧
      infixOfL noTranscriptBranch.data out.prompt.data = true) := by
  have htr : transcriptOf env = "" := by
    simp [transcriptOf, h4, h5, h6, h7]
  refine ⟨htr, ?_⟩
  intro out hout
  obtain ⟨ht, hc, hp, hv⟩ := pipelineRun_ok_shape env p out hout
  have hte : out.transcript = "" := by rw [ht, htr]
  refine ⟨hte, ?_, ?_⟩
  · rw [analyzeVideo_validated env u p h1 h2 h3, hout]
    simp [hte]
  · rw [hp, htr]
    unfold visionPrompt
    rw [if_neg (by simp)]
    simp only [data_append, List.append_assoc]
    apply infixOfL_append_left
    apply infixOfL_append_left
    apply infixOfL_append_left
    exact infixOfL_prefix _ _

/-- Witness for C10 at the header-only-subtitle environment. -/
theorem hasTranscript_semantics_witness :
    transcriptOf envHeaderOnlySub = "" ∧
    (analyzeVideo envHeaderOnlySub).body =
      AnalyzeBody.ok pipelineOutHeader.analysis "youtube" false
        pipelineOutHeader.frameCount ∧
    infixOfL noTranscriptBranch.data pipelineOutHeader.prompt.data = true := by
  have h := hasTranscript_semantics envHeaderOnlySub
    "https://www.youtube.com/watch?v=abc123" "youtube" rfl (by decide)
    (by decide) rfl (by decide) rfl (by decide)
  have h3 := h.2 pipelineOutHeader rfl
  exact ⟨h.1, h3.2.1, h3.2.2⟩

theorem dropWhile_head_pred_false (p : Char → Bool) :
    ∀ (l hd : List Char) (c : Char), l.dropWhile p = c :: hd → p c = false := by
  intro l
  induction l with
  | nil =>
    intro hd c h
    exact List.noConfusion h
  | cons a rest ih =>
    intro hd c h
    cases hp : p a with
    | true =>
      rw [List.dropWhile_cons, hp, if_pos rfl] at h
      exact ih hd c h
    | false =>
      rw [List.dropWhile_cons, hp] at h
      simp only [Bool.false_eq_true, if_false] at h
      injection h with h1 h2
      subst h1
      exact hp

theorem takeWhile_dropWhile_gt (rest rest2 : List Char)
    (hdw : rest.dropWhile (fun x => x ≠ '>') = '>' :: rest2) :
    rest = rest.takeWhile (fun x => x ≠ '>') ++ '>' :: rest2 := by
  conv_lhs => rw [← List.takeWhile_append_dropWhile
    (p := fun x => x ≠ '>') (l := rest)]
  rw [hdw]

theorem stripTagsF_congr (f1 : Nat) :
    ∀ (f2 : Nat) (cs : List Char), cs.length ≤ f1 → cs.length ≤ f2 →
    stripTagsF f1 cs = stripTagsF f2 cs := by
  induction f1 with
  | zero =>
    intro f2 cs h1 _
    have : cs = [] := List.length_eq_zero.mp (Nat.le_zero.mp h1)
    subst this
    cases f2 <;> rfl
  | succ f1 ih =>
    intro f2 cs h1 h2
    cases f2 with
    | zero =>
      have : cs = [] := List.length_eq_zero.mp (Nat.le_zero.mp h2)
      subst this
      rfl
    | succ f2 =>
      cases cs with
      | nil => rfl
      | cons c rest =>
        have hr1 : rest.length ≤ f1 := by
          simp only [List.length_cons] at h1
          omega
        have hr2 : rest.length ≤ f2 := by
          simp only [List.length_cons] at h2
          omega
        by_cases hc : c = '<'
        · cases hdw : rest.dropWhile (fun x => x ≠ '>') with
          | nil =>
            simp only [stripTagsF, hc, if_true, hdw]
            rw [ih f2 rest hr1 hr2]
          | cons hd tl =>
            have hhd := dropWhile_head_pred_false (fun x => x ≠ '>') rest tl hd hdw
            have hgt : hd = '>' := by simpa using hhd
            subst hgt
            have hsplit := takeWhile_dropWhile_gt rest tl hdw
            have htl1 : tl.length ≤ f1 := by
              have := congrArg List.length hsplit
              simp only [List.length_append, List.length_cons] at this
              omega
            have htl2 : tl.length ≤ f2 := by
              have := congrArg List.length hsplit
              simp only [List.length_append, List.length_cons] at this
              omega
            by_cases htw : rest.takeWhile (fun x => x ≠ '>') = []
            · simp only [stripTagsF, hc, if_true, hdw, htw]
              rw [ih f2 rest hr1 hr2]
            · simp only [stripTagsF, hc, if_true, hdw, htw, if_false]
              rw [ih f2 tl htl1 htl2]
        · simp only [stripTagsF, hc, if_false]
          rw [ih f2 rest hr1 hr2]

theorem stripTags_cons_ne (c : Char) (rest : List Char) (hc : c ≠ '<') :
    stripTags (c :: rest) = c :: stripTags rest := by
  unfold stripTags
  simp only [List.length_cons, stripTagsF, hc, if_false]

theorem stripTags_lt_noGt (rest : List Char)
    (hdw : rest.dropWhile (fun x => x ≠ '>') = []) :
    stripTags ('<' :: rest) = '<' :: stripTags rest := by
  unfold stripTags
  simp only [List.length_cons, stripTagsF, if_true, hdw]

theorem stripTags_lt_emptyTag (rest rest2 : List Char)
    (hdw : rest.dropWhile (fun x => x ≠ '>') = '>' :: rest2)
    (htw : rest.takeWhile (fun x => x ≠ '>') = []) :
    stripTags ('<' :: rest) = '<' :: stripTags rest := by
  unfold stripTags
  simp only [List.length_cons, stripTagsF, if_true, hdw, htw]

theorem stripTags_lt_tag (rest rest2 : List Char)
    (hdw : rest.dropWhile (fun x => x ≠ '>') = '>' :: rest2)
    (htw : rest.takeWhile (fun x => x ≠ '>') ≠ []) :
    stripTags ('<' :: rest) = stripTags rest2 := by
  unfold stripTags
  simp only [List.length_cons, stripTagsF, if_true, hdw, htw, if_false]
  have hsplit := takeWhile_dropWhile_gt rest rest2 hdw
  have hlen : rest2.length ≤ rest.length := by
    have := congrArg List.length hsplit
    simp only [List.length_append, List.length_cons] at this
    omega
  exact stripTagsF_congr rest.length rest2.length rest2 hlen (le_refl _)

theorem stripTags_sublist (cs : List Char) : List.Sublist (stripTags cs) cs := by
  have H : ∀ (n : Nat) (cs : List Char), cs.length ≤ n → List.Sublist (stripTags cs) cs := by
    intro n
    induction n with
    | zero =>
      intro cs h
      have h0 : cs = [] := List.length_eq_zero.mp (Nat.le_zero.mp h)
      subst h0
      exact List.Sublist.refl _
    | succ n ih =>
      intro cs h
      cases cs with
      | nil => exact List.Sublist.refl _
      | cons c rest =>
        have hr : rest.length ≤ n := by
          simp only [List.length_cons] at h
          omega
        by_cases hc : c = '<'
        · subst hc
          cases hdw : rest.dropWhile (fun x => x ≠ '>') with
          | nil =>
            rw [stripTags_lt_noGt rest hdw]
            exact (ih rest hr).cons₂ _
          | cons hd tl =>
            have hgt : hd = '>' := by
              simpa using dropWhile_head_pred_false (fun x => x ≠ '>') rest tl hd hdw
            subst hgt
            by_cases htw : rest.takeWhile (fun x => x ≠ '>') = []
            · rw [stripTags_lt_emptyTag rest tl hdw htw]
              exact (ih rest hr).cons₂ _
            · rw [stripTags_lt_tag rest tl hdw htw]
              have hsplit := takeWhile_dropWhile_gt rest tl hdw
              have htl : tl.length ≤ n := by
                have := congrArg List.length hsplit
                simp only [List.length_append, List.length_cons] at this
                omega
              have h2 : List.Sublist tl rest := by
                rw [hsplit]
                refine List.Sublist.trans ?_ (List.sublist_append_right _ _)
                exact List.sublist_cons_self '>' tl
              exact ((ih tl htl).trans h2).cons _
        · rw [stripTags_cons_ne c rest hc]
          exact (ih rest hr).cons₂ _
  exact H cs.length cs (le_refl _)

theorem hasTag_stripTags (cs : List Char) : hasTag (stripTags cs) = false := by
  have H : ∀ (n : Nat) (cs : List Char), cs.length ≤ n →
      hasTag (stripTags cs) = false := by
    intro n
    induction n with
    | zero =>
      intro cs h
      have h0 : cs = [] := List.length_eq_zero.mp (Nat.le_zero.mp h)
      subst h0
      rfl
    | succ n ih =>
      intro cs h
      cases cs with
      | nil => rfl
      | cons c rest =>
        have hr : rest.length ≤ n := by
          simp only [List.length_cons] at h
          omega
        by_cases hc : c = '<'
        · subst hc
          cases hdw : rest.dropWhile (fun x => x ≠ '>') with
          | nil =>
            rw [stripTags_lt_noGt rest hdw]
            have hnog : ∀ x ∈ rest, x ≠ '>' := by
              intro x hx
              simpa using List.dropWhile_eq_nil_iff.mp hdw x hx
            have hS : (stripTags rest).dropWhile (fun x => x ≠ '>') = [] := by
              rw [List.dropWhile_eq_nil_iff]
              intro x hx
              simpa using hnog x ((stripTags_sublist rest).subset hx)
            simp only [hasTag, hS]
            simp [ih rest hr]
          | cons hd tl =>
            have hgt : hd = '>' := by
              simpa using dropWhile_head_pred_false (fun x => x ≠ '>') rest tl hd hdw
            subst hgt
            by_cases htw : rest.takeWhile (fun x => x ≠ '>') = []
            · rw [stripTags_lt_emptyTag rest tl hdw htw]
              have hrest : rest = '>' :: tl := by
                have := takeWhile_dropWhile_gt rest tl hdw
                rwa [htw, List.nil_append] at this
              have htln : tl.length ≤ n := by
                rw [hrest] at hr
                simp only [List.length_cons] at hr
                omega
              rw [hrest, stripTags_cons_ne '>' tl (by decide)]
              have hdw2 : ('>' :: stripTags tl).dropWhile (fun x => x ≠ '>') =
                  '>' :: stripTags tl := by
                rw [List.dropWhile_cons]
                simp
              simp only [hasTag, hdw2]
              simp [ih tl htln]
            · rw [stripTags_lt_tag rest tl hdw htw]
              have hsplit := takeWhile_dropWhile_gt rest tl hdw
              have htl : tl.length ≤ n := by
                have := congrArg List.length hsplit
                simp only [List.length_append, List.length_cons] at this
                omega
              exact ih tl htl
        · rw [stripTags_cons_ne c rest hc]
          simp only [hasTag, hc]
          simp [ih rest hr, hc]
  exact H cs.length cs (le_refl _)

theorem collapseWSF_congr (f1 : Nat) :
    ∀ (f2 : Nat) (cs : List Char), cs.length ≤ f1 → cs.length ≤ f2 →
    collapseWSF f1 cs = collapseWSF f2 cs := by
  induction f1 with
  | zero =>
    intro f2 cs h1 _
    have h0 : cs = [] := List.length_eq_zero.mp (Nat.le_zero.mp h1)
    subst h0
    cases f2 <;> rfl
  | succ f1 ih =>
    intro f2 cs h1 h2
    cases f2 with
    | zero =>
      have h0 : cs = [] := List.length_eq_zero.mp (Nat.le_zero.mp h2)
      subst h0
      rfl
    | succ f2 =>
      cases cs with
      | nil => rfl
      | cons c rest =>
        have hr1 : rest.length ≤ f1 := by
          simp only [List.length_cons] at h1
          omega
        have hr2 : rest.length ≤ f2 := by
          simp only [List.length_cons] at h2
          omega
        cases hw : jsWhitespace c with
        | true =>
          simp only [collapseWSF, hw, if_true]
          have hd : (rest.dropWhile jsWhitespace).length ≤ rest.length :=
            (List.dropWhile_sublist _).length_le
          rw [ih f2 _ (by omega) (by omega)]
        | false =>
          simp only [collapseWSF, hw, Bool.false_eq_true, if_false]
          rw [ih f2 rest hr1 hr2]

theorem collapseWS_nil : collapseWS [] = [] := rfl

theorem collapseWS_cons_ws (c : Char) (rest : List Char)
    (hw : jsWhitespace c = true) :
    collapseWS (c :: rest) =
      ' ' :: collapseWS (rest.dropWhile jsWhitespace) := by
  unfold collapseWS
  simp only [List.length_cons, collapseWSF, hw, if_true]
  exact congrArg _ (collapseWSF_congr rest.length _ _
    ((List.dropWhile_sublist _).length_le) (le_refl _))

theorem collapseWS_cons_nws (c : Char) (rest : List Char)
    (hw : jsWhitespace c = false) :
    collapseWS (c :: rest) = c :: collapseWS rest := by
  unfold collapseWS
  simp only [List.length_cons, collapseWSF, hw, Bool.false_eq_true, if_false]

theorem dropWhile_head?_false (p : Char → Bool) (l : List Char) :
    ∀ x, (l.dropWhile p).head? = some x → p x = false := by
  intro x hx
  cases hdw : l.dropWhile p with
  | nil =>
    rw [hdw] at hx
    exact Option.noConfusion hx
  | cons a tl =>
    rw [hdw] at hx
    simp only [List.head?_cons, Option.some.injEq] at hx
    subst hx
    exact dropWhile_head_pred_false p l tl a hdw

theorem collapseWS_ws_space (cs : List Char) :
    ∀ c ∈ collapseWS cs, jsWhitespace c = true → c = ' ' := by
  have H : ∀ (n : Nat) (cs : List Char), cs.length ≤ n →
      ∀ c ∈ collapseWS cs, jsWhitespace c = true → c = ' ' := by
    intro n
    induction n with
    | zero =>
      intro cs h
      have h0 : cs = [] := List.length_eq_zero.mp (Nat.le_zero.mp h)
      subst h0
      intro c hc
      exact absurd hc (by simp [collapseWS_nil])
    | succ n ih =>
      intro cs h
      cases cs with
      | nil =>
        intro c hc
        exact absurd hc (by simp [collapseWS_nil])
      | cons a rest =>
        have hr : rest.length ≤ n := by
          simp only [List.length_cons] at h
          omega
        cases hw : jsWhitespace a with
        | true =>
          rw [collapseWS_cons_ws a rest hw]
          intro c hc hwc
          rcases List.mem_cons.mp hc with h1 | h1
          · exact h1
          · have hdl : (rest.dropWhile jsWhitespace).length ≤ n :=
              le_trans ((List.dropWhile_sublist _).length_le) hr
            exact ih (rest.dropWhile jsWhitespace) hdl c h1 hwc
        | false =>
          rw [collapseWS_cons_nws a rest hw]
          intro c hc hwc
          rcases List.mem_cons.mp hc with h1 | h1
          · subst h1
            rw [hw] at hwc
            exact Bool.noConfusion hwc
          · exact ih rest hr c h1 hwc
  exact H cs.length cs (le_refl _)

theorem jsWhitespace_space : jsWhitespace ' ' = true := by decide

theorem collapseWS_head_ne_space (cs : List Char)
    (hh : ∀ x, cs.head? = some x → jsWhitespace x = false) :
    ∀ y, (collapseWS cs).head? = some y → y ≠ ' ' := by
  cases cs with
  | nil =>
    intro y hy
    rw [collapseWS_nil] at hy
    exact Option.noConfusion hy
  | cons c rest =>
    have hc := hh c rfl
    rw [collapseWS_cons_nws c rest hc]
    intro y hy
    simp only [List.head?_cons, Option.some.injEq] at hy
    subst hy
    intro he
    rw [he, jsWhitespace_space] at hc
    exact Bool.noConfusion hc

theorem collapseWS_chain (cs : List Char) :
    List.Chain' (fun a b => ¬(a = ' ' ∧ b = ' ')) (collapseWS cs) := by
  have H : ∀ (n : Nat) (cs : List Char), cs.length ≤ n →
      List.Chain' (fun a b => ¬(a = ' ' ∧ b = ' ')) (collapseWS cs) := by
    intro n
    induction n with
    | zero =>
      intro cs h
      have h0 : cs = [] := List.length_eq_zero.mp (Nat.le_zero.mp h)
      subst h0
      rw [collapseWS_nil]
      exact List.chain'_nil
    | succ n ih =>
      intro cs h
      cases cs with
      | nil =>
        rw [collapseWS_nil]
        exact List.chain'_nil
      | cons a rest =>
        have hr : rest.length ≤ n := by
          simp only [List.length_cons] at h
          omega
        cases hw : jsWhitespace a with
        | true =>
          rw [collapseWS_cons_ws a rest hw]
          rw [List.chain'_cons']
          constructor
          · intro y hy
            have hne : y ≠ ' ' :=
              collapseWS_head_ne_space (rest.dropWhile jsWhitespace)
                (dropWhile_head?_false jsWhitespace rest) y hy
            intro hpair
            exact hne hpair.2
          · have hdl : (rest.dropWhile jsWhitespace).length ≤ n :=
              le_trans ((List.dropWhile_sublist _).length_le) hr
            exact ih (rest.dropWhile jsWhitespace) hdl
        | false =>
          rw [collapseWS_cons_nws a rest hw]
          rw [List.chain'_cons']
          constructor
          · intro y _ hpair
            rw [hpair.1, jsWhitespace_space] at hw
            exact Bool.noConfusion hw
          · exact ih rest hr
  exact H cs.length cs (le_refl _)

theorem jsTrim_within (cs : List Char) : jsTrim cs <:+: cs := by
  have h1 : jsTrim cs <+: cs.dropWhile jsWhitespace :=
    List.rdropWhile_prefix jsWhitespace (cs.dropWhile jsWhitespace)
  have h2 : cs.dropWhile jsWhitespace <:+ cs :=
    List.dropWhile_suffix jsWhitespace
  exact h1.isInfix.trans h2.isInfix

theorem parseVTT_data (s : String) :
    (parseVTT s).data =
      (jsTrim (collapseWS (stripTags (List.intercalate [' ']
        ((splitOnNl s.data).filter keepLine))))).take 3000 := rfl

theorem parseVTT_infix_collapse (s : String) :
    (parseVTT s).data <:+: collapseWS (stripTags (List.intercalate [' ']
      ((splitOnNl s.data).filter keepLine))) := by
  rw [parseVTT_data]
  exact (List.take_prefix _ _).isInfix.trans (jsTrim_within _)

theorem splitOnNl_ne_nil (cs : List Char) : splitOnNl cs ≠ [] := by
  cases cs with
  | nil => simp [splitOnNl]
  | cons c rest =>
    simp only [splitOnNl]
    cases splitOnNl rest with
    | nil => simp
    | cons h t => by_cases hc : c = '\n' <;> simp [hc]

theorem splitOnNl_append (l rest : List Char) (hnl : '\n' ∉ l) :
    splitOnNl (l ++ '\n' :: rest) = l :: splitOnNl rest := by
  induction l with
  | nil =>
    rw [List.nil_append]
    simp only [splitOnNl]
    cases hsp : splitOnNl rest with
    | nil => exact absurd hsp (splitOnNl_ne_nil rest)
    | cons h t => simp
  | cons c l ih =>
    have hc : c ≠ '\n' := by
      intro he
      exact hnl (he ▸ List.mem_cons_self c l)
    have hl : '\n' ∉ l := fun hmem => hnl (List.mem_cons_of_mem c hmem)
    rw [List.cons_append]
    simp only [splitOnNl, ih hl]
    simp [hc]

theorem parseVTTlines_cons_dropped (l : List Char) (ls : List (List Char))
    (hl : keepLine l = false) :
    parseVTTlines (l :: ls) = parseVTTlines ls := by
  unfold parseVTTlines
  rw [List.filter_cons_of_neg (by simp [hl])]

theorem keepLine_false_of_marker (l : List Char)
    (h : (markWEBVTT.isPrefixOf l || markNOTE.isPrefixOf l ||
          markKind.isPrefixOf l || markLanguage.isPrefixOf l ||
          startsWithTimestamp l) = true) :
    keepLine l = false := by
  unfold keepLine
  simp only [Bool.or_eq_true] at h
  rcases h with ((((h | h) | h) | h) | h) <;> simp [h]

/-- C5: parseVTT never yields more than 3000 characters, its output
has no whitespace other than single spaces and no two adjacent
spaces, the tag-stripping stage leaves no complete inline tag, a line
beginning with any of the header, metadata, or timestamp markers is
removed (dropping such a line from the input leaves the output
unchanged), and each marker falsifies the line filter. -/
theorem parseVTT_spec (s : String) :
    (parseVTT s).length ≤ 3000 ∧
    (∀ c ∈ (parseVTT s).data, jsWhitespace c = true → c = ' ') ∧
    List.Chain' (fun a b => ¬(a = ' ' ∧ b = ' ')) (parseVTT s).data ∧
    (∀ cs : List Char, hasTag (stripTags cs) = false) ∧
    (∀ (l rest : List Char), '\n' ∉ l → keepLine l = false →
      parseVTT (String.mk (l ++ '\n' :: rest)) =
        parseVTT (String.mk rest)) ∧
    (∀ l : List Char,
      (markWEBVTT.isPrefixOf l || markNOTE.isPrefixOf l ||
       markKind.isPrefixOf l || markLanguage.isPrefixOf l ||
       startsWithTimestamp l) = true → keepLine l = false) := by
  refine ⟨?_, ?_, ?_, hasTag_stripTags, ?_, keepLine_false_of_marker⟩
  · show (parseVTT s).data.length ≤ 3000
    rw [parseVTT_data]
    exact List.length_take_le _ _
  · intro c hc hwc
    have hmem : c ∈ collapseWS (stripTags (List.intercalate [' ']
        ((splitOnNl s.data).filter keepLine))) :=
      (parseVTT_infix_collapse s).subset hc
    exact collapseWS_ws_space _ c hmem hwc
  · exact List.Chain'.infix (collapseWS_chain _) (parseVTT_infix_collapse s)
  · intro l rest hnl hl
    unfold parseVTT
    show parseVTTlines (splitOnNl (l ++ '\n' :: rest)) =
      parseVTTlines (splitOnNl rest)
    rw [splitOnNl_append l rest hnl, parseVTTlines_cons_dropped l _ hl]

/-- Witness for C5 at a concrete subtitle text with a marker line, a
tag, and a whitespace run. -/
theorem parseVTT_spec_witness :
    (parseVTT "WEBVTT\nhello   <b>world</b>").length ≤ 3000 ∧
    parseVTT (String.mk ("WEBVTT".data ++ '\n' :: "hi there".data)) =
      parseVTT (String.mk ("hi there".data)) ∧
    keepLine ("NOTE this is a note".data) = false := by
  refine ⟨(parseVTT_spec "WEBVTT\nhello   <b>world</b>").1, ?_, ?_⟩
  · exact (parseVTT_spec "").2.2.2.2.1 ("WEBVTT".data) ("hi there".data)
      (by decide) (by decide)
  · exact (parseVTT_spec "").2.2.2.2.2 ("NOTE this is a note".data)
      (by decide)

end CSA
